import Mathlib

/-!
Verification of the insight-generation workflow of the analytics-dashboard
repository.

The workflow pieces that appear verbatim in the repository's sources
(`AgentState`, `_should_continue`, `_calculate_confidence`, the prompt's
analysis keys) are embedded directly from that code.  The surrounding
engine (Analyze, the router loop, transient-retry handling, Format) exists
in the repository only through its specification; those definitions are
marked `Modelled from the spec:` and follow the spec's wording.

Numeric note: the scorer's float arithmetic only ever produces the values
0.5, 0.6, 0.7, 0.8, 0.9, 1.0 (base 0.5 plus subsets of 0.2, 0.1, 0.2,
capped at 1.0) and only ever compares them against 0.5, 0.7 and 1.0; at
every such comparison IEEE doubles and exact rationals agree, so the
embedding uses ℚ.
-/

namespace Workflow

/-- A metric record `{id, name, value, category, description?}` as the
workflow consumes it (spec §3 and the frontend `Metric` interface). -/
structure MetricRecord where
  id : Nat
  name : String
  value : ℚ
  category : String
  description : Option String
deriving DecidableEq, Repr

/-- The keys of the `current_analysis` dictionary that the workflow reads:
`total_metrics`, `categories`, the `value_ranges` min/max (all read by the
prompt builder in the source), and `quality_acceptable` (read by
`_should_continue` via `.get("quality_acceptable", False)`, hence the
`false` default). -/
structure CurrentAnalysis where
  total_metrics : Nat := 0
  categories : List String := []
  min_value : ℚ := 0
  max_value : ℚ := 0
  quality_acceptable : Bool := false
deriving DecidableEq, Repr

/-- The `AgentState` TypedDict from the source:
`messages`, `metrics_data`, `insights`, `current_analysis`,
`confidence_score`.  Messages are kept as their text. -/
structure AgentState where
  messages : List String
  metrics_data : List MetricRecord
  insights : List String
  current_analysis : CurrentAnalysis
  confidence_score : ℚ
deriving DecidableEq, Repr

/-- A state delta produced by one step.  `messages` and `insights` are
annotated `operator.add` in the source `AgentState`, so they merge by list
concatenation; the remaining fields are replaced when present. -/
structure StateUpdate where
  newMessages : List String := []
  newInsights : List String := []
  analysisUpdate : Option CurrentAnalysis := none
  confidenceUpdate : Option ℚ := none

/-- Merge one step's delta into the state: append for `messages` and
`insights` (the `operator.add` annotations), replace for the rest. -/
def applyUpdate (s : AgentState) (u : StateUpdate) : AgentState :=
  { s with
    messages := s.messages ++ u.newMessages
    insights := s.insights ++ u.newInsights
    current_analysis := u.analysisUpdate.getD s.current_analysis
    confidence_score := u.confidenceUpdate.getD s.confidence_score }

/-- Modelled from the spec: the average insight length used by the scorer
(`+0.2` if it exceeds 50 characters); the source shows only the variable
`avg_length`.  For the empty sequence the quotient is `x / 0 = 0` in ℚ,
so no length bonus applies. -/
def avg_length (insights : List String) : ℚ :=
  (insights.map (fun i => (i.length : ℚ))).sum / insights.length

/-- Modelled from the spec: whether any insight contains a numeric token
(`+0.1`); the source shows only the variable `has_numbers`. -/
def has_numbers (insights : List String) : Bool :=
  insights.any (fun i => i.data.any Char.isDigit)

/-- Modelled from the spec: the fixed action-verb vocabulary, using the
verbs the spec lists. -/
def action_words : List String :=
  ["increase", "reduce", "investigate", "optimize"]

/-- Substring test over the character lists of the two strings. -/
def strContains (hay needle : String) : Bool :=
  hay.data.tails.any (fun t => needle.data.isPrefixOf t)

/-- Modelled from the spec: whether any insight contains an action verb
from the fixed vocabulary (`+0.2`); the source shows only the variable
`has_action_words`. -/
def has_action_words (insights : List String) : Bool :=
  insights.any (fun i => action_words.any (fun w => strContains i w))

/-- The source's `_calculate_confidence`: base `0.5`, `+0.2` when the
average length exceeds 50, `+0.1` when a number occurs, `+0.2` when an
action word occurs, then `min(confidence, 1.0)`. -/
def calculate_confidence (insights : List String) : ℚ :=
  let confidence : ℚ := 0.5
  let confidence := if avg_length insights > 50 then confidence + 0.2 else confidence
  let confidence := if has_numbers insights then confidence + 0.1 else confidence
  let confidence := if has_action_words insights then confidence + 0.2 else confidence
  min confidence 1.0

/-- The confidence heuristic exactly as the spec words it (claim C3's
reading): base `0.5`, the three weighted bonuses, then clamp the result
to `[0.0, 1.0]` on both sides. -/
def spec_confidence (insights : List String) : ℚ :=
  let b1 : ℚ := if avg_length insights > 50 then 0.2 else 0
  let b2 : ℚ := if has_numbers insights then 0.1 else 0
  let b3 : ℚ := if has_action_words insights then 0.2 else 0
  max 0 (min (0.5 + b1 + b2 + b3) 1)

/-- The source's `_should_continue`: reads
`current_analysis.get("quality_acceptable", False)` and
`confidence_score`, then returns `"continue"` when both
`quality_acceptable` and `confidence >= 0.7` hold, `"regenerate"` when
`confidence < 0.5`, and `"end"` otherwise. -/
def should_continue (state : AgentState) : String :=
  let quality_acceptable := state.current_analysis.quality_acceptable
  let confidence := state.confidence_score
  if quality_acceptable ∧ confidence ≥ 0.7 then "continue"
  else if confidence < 0.5 then "regenerate"
  else "end"

/-- The three-rule ordered decision list of spec §4.4 (first match wins):
`confidence ≥ 0.7 → end`; `confidence < 0.5 → regenerate`; otherwise
`end`.  This is the claimed routing rule, and also the gate decision the
spec-modelled engine below uses. -/
def specDecision (confidence : ℚ) : String :=
  if confidence ≥ 0.7 then "end"
  else if confidence < 0.5 then "regenerate"
  else "end"

/-- The routing decision as the source actually computes it, written as an
ordered decision list (the amended form of claim C1): the first rule fires
only when `quality_acceptable` also holds and then yields `continue`. -/
def amendedDecision (quality_acceptable : Bool) (confidence : ℚ) : String :=
  if quality_acceptable ∧ confidence ≥ 0.7 then "continue"
  else if confidence < 0.5 then "regenerate"
  else "end"

/-- Modelled from the spec: the Analyze step (§4.2) — record count, the
distinct categories, and the numeric value range; the analysis keys are
the ones the source's prompt builder reads (`total_metrics`,
`categories`, the `value_ranges` min/max).  `quality_acceptable` stays at
its `False` default; nothing in the sources sets it. -/
def analyze (records : List MetricRecord) : CurrentAnalysis :=
  match records with
  | [] => {}
  | r :: rs =>
    { total_metrics := (r :: rs).length
      categories := ((r :: rs).map (fun m => m.category)).dedup
      min_value := rs.foldl (fun m x => min m x.value) r.value
      max_value := rs.foldl (fun m x => max m x.value) r.value
      quality_acceptable := false }

/-- The final `InsightRecord` `{text, type, confidence}` of spec §3. -/
structure InsightRecord where
  text : String
  type : String
  confidence : ℚ
deriving DecidableEq, Repr

/-- Modelled from the spec: the Format step's ordered keyword matching
(§4.6) — first matching vocabulary wins, default `observation`.  The
per-type vocabulary contents are not in the sources; small vocabularies
are chosen here. -/
def classify (text : String) : String :=
  if ["trend", "increase", "decrease", "growth"].any (fun w => strContains text w) then "trend"
  else if ["risk", "concern", "decline"].any (fun w => strContains text w) then "risk"
  else if ["opportunity", "potential"].any (fun w => strContains text w) then "opportunity"
  else if ["recommend", "should", "consider"].any (fun w => strContains text w) then "recommendation"
  else "observation"

/-- Modelled from the spec: the Format step produces one `InsightRecord`
per accumulated insight, each paired with the run's final confidence. -/
def format_response (insights : List String) (conf : ℚ) : List InsightRecord :=
  insights.map (fun t => { text := t, type := classify t, confidence := conf })

/-- One reply of the external text-generation collaborator: either the
produced insight strings or a failure (timeout / rate limit / malformed
output are not distinguished by the engine). -/
inductive LLMResult where
  | ok (texts : List String)
  | fail
deriving DecidableEq, Repr

/-- The typed failures of the engine that the modelled fragment can
reach (spec §7). -/
inductive EngineError where
  | InputError
  | LLMError
deriving DecidableEq, Repr

/-- Step names, recorded in a run's trace in execution order. -/
inductive Step where
  | analyze
  | generate
  | gate
  | format
deriving DecidableEq, Repr

/-- Modelled from the spec: one Generate-step call to the collaborator
with its transient-failure retry budget (§4.3).  The collaborator is a
function of the global attempt index; `b` remaining retries allow `b + 1`
attempts, and the next unused attempt index is returned on success. -/
def tryGenerate (llm : Nat → LLMResult) : Nat → Nat → Option (List String × Nat)
  | k, 0 =>
    match llm k with
    | .ok t => some (t, k + 1)
    | .fail => none
  | k, b + 1 =>
    match llm k with
    | .ok t => some (t, k + 1)
    | .fail => tryGenerate llm (k + 1) b

/-- Modelled from the spec: the Generate → Quality Gate → Router cycle
(§4.3–§4.5).  `retriesLeft` is the remaining regeneration budget
(`maxRetries - retryCount`); the router loops back to Generate on a
`regenerate` label while budget remains, and otherwise — including the
forced acceptance when the budget is exhausted — proceeds to Format.
Returns the run result, the trace of executed steps, and the sequence of
confidence values the gate assigned. -/
def runLoop (llm : Nat → LLMResult) (gateConf : List String → ℚ) (tb : Nat) :
    Nat → AgentState → Nat →
    Except EngineError (List InsightRecord × ℚ) × List Step × List ℚ
  | 0, s, k =>
    (tryGenerate llm k tb).elim (.error .LLMError, [.generate], []) (fun p =>
      let s2 := applyUpdate s { newMessages := ["request", "response"], newInsights := p.1 }
      let conf := gateConf s2.insights
      -- budget exhausted: both an `end` label and a `regenerate` label route
      -- to Format (the latter is the forced acceptance), so the label need
      -- not be consulted here
      (.ok (format_response s2.insights conf, conf), [.generate, .gate, .format], [conf]))
  | r + 1, s, k =>
    (tryGenerate llm k tb).elim (.error .LLMError, [.generate], []) (fun p =>
      let s2 := applyUpdate s { newMessages := ["request", "response"], newInsights := p.1 }
      let conf := gateConf s2.insights
      let s3 := { s2 with confidence_score := conf }
      if specDecision conf = "regenerate" then
        let rest := runLoop llm gateConf tb r s3 p.2
        (rest.1, .generate :: .gate :: rest.2.1, conf :: rest.2.2)
      else (.ok (format_response s2.insights conf, conf), [.generate, .gate, .format], [conf]))

/-- Modelled from the spec: the workflow engine's single entry point
(§6): empty input is an immediate `InputError` before any step runs;
otherwise the state is created with the input records, Analyze runs once,
and the Generate/Gate/Router loop takes over.  The quality gate's scorer
is a parameter so that claims quantifying over gate outputs can be
stated; the repository's scorer is `calculate_confidence`. -/
def runEngine (llm : Nat → LLMResult) (gateConf : List String → ℚ)
    (maxRetries tb : Nat) (input : List MetricRecord) :
    Except EngineError (List InsightRecord × ℚ) × List Step × List ℚ :=
  match input with
  | [] => (.error .InputError, [], [])
  | r :: rs =>
    let s0 : AgentState :=
      { messages := []
        metrics_data := r :: rs
        insights := []
        current_analysis := analyze (r :: rs)
        confidence_score := 0 }
    let out := runLoop llm gateConf tb maxRetries s0 0
    (out.1, Step.analyze :: out.2.1, out.2.2)

/-! ### Helper lemmas -/

lemma specDecision_eq_regenerate_iff (c : ℚ) :
    specDecision c = "regenerate" ↔ c < 0.5 := by
  unfold specDecision
  split_ifs with h1 h2
  · exact iff_of_false (by simp) (not_lt.2 (le_trans (by norm_num) h1))
  · exact iff_of_true rfl h2
  · exact iff_of_false (by simp) h2

lemma tryGenerate_fail (b k : Nat) :
    tryGenerate (fun _ => LLMResult.fail) k b = none := by
  induction b generalizing k with
  | zero => rfl
  | succ b ih => simpa [tryGenerate] using ih (k + 1)

lemma tryGenerate_ok (llm : Nat → LLMResult) (h : ∀ n, llm n ≠ .fail) (k b : Nat) :
    ∃ t, tryGenerate llm k b = some (t, k + 1) := by
  cases hk : llm k with
  | ok t => exact ⟨t, by cases b <;> simp [tryGenerate, hk]⟩
  | fail => exact absurd hk (h k)

lemma runLoop_count_generate_le (llm : Nat → LLMResult) (g : List String → ℚ) (tb : Nat) :
    ∀ (rl : Nat) (s : AgentState) (k : Nat),
      ((runLoop llm g tb rl s k).2.1).count Step.generate ≤ rl + 1 := by
  intro rl
  induction rl with
  | zero =>
    intro s k
    rcases htg : tryGenerate llm k tb with _ | ⟨t, k2⟩ <;>
      simp [runLoop, htg, List.count_cons]
  | succ r ih =>
    intro s k
    rcases htg : tryGenerate llm k tb with _ | ⟨t, k2⟩
    · simp [runLoop, htg]
    · simp only [runLoop, htg, Option.elim_some]
      split_ifs
      · simpa [List.count_cons] using ih _ _
      · simp [List.count_cons]

lemma runLoop_reaches_format (llm : Nat → LLMResult) (g : List String → ℚ) (tb : Nat)
    (hllm : ∀ n, llm n ≠ .fail) :
    ∀ (rl : Nat) (s : AgentState) (k : Nat),
      Step.format ∈ (runLoop llm g tb rl s k).2.1 ∧
      ∃ recs conf, (runLoop llm g tb rl s k).1 = .ok (recs, conf) := by
  intro rl
  induction rl with
  | zero =>
    intro s k
    obtain ⟨t, htg⟩ := tryGenerate_ok llm hllm k tb
    simp only [runLoop, htg, Option.elim_some]
    exact ⟨by simp, _, _, rfl⟩
  | succ r ih =>
    intro s k
    obtain ⟨t, htg⟩ := tryGenerate_ok llm hllm k tb
    simp only [runLoop, htg, Option.elim_some]
    split_ifs
    · exact ⟨List.mem_cons_of_mem _ (List.mem_cons_of_mem _ (ih _ _).1), (ih _ _).2⟩
    · exact ⟨by simp, _, _, rfl⟩

lemma runLoop_low_gate (llm : Nat → LLMResult) (g : List String → ℚ) (tb : Nat)
    (hllm : ∀ n, llm n ≠ .fail) (hg : ∀ ins, g ins < 0.5) :
    ∀ (rl : Nat) (s : AgentState) (k : Nat),
      ((runLoop llm g tb rl s k).2.1).count Step.generate = rl + 1 ∧
      ∃ recs conf, (runLoop llm g tb rl s k).1 = .ok (recs, conf) ∧ conf < 0.5 := by
  intro rl
  induction rl with
  | zero =>
    intro s k
    obtain ⟨t, htg⟩ := tryGenerate_ok llm hllm k tb
    simp only [runLoop, htg, Option.elim_some]
    exact ⟨by simp [List.count_cons], _, _, rfl, hg _⟩
  | succ r ih =>
    intro s k
    obtain ⟨t, htg⟩ := tryGenerate_ok llm hllm k tb
    simp only [runLoop, htg, Option.elim_some]
    rw [if_pos ((specDecision_eq_regenerate_iff _).2 (hg _))]
    refine ⟨?_, (ih _ _).2⟩
    simpa [List.count_cons] using (ih _ _).1

lemma runLoop_count_le_one (llm : Nat → LLMResult) (g : List String → ℚ) (tb : Nat)
    (hg : ∀ ins, ¬ g ins < 0.5) :
    ∀ (rl : Nat) (s : AgentState) (k : Nat),
      ((runLoop llm g tb rl s k).2.1).count Step.generate ≤ 1 := by
  intro rl s k
  rcases htg : tryGenerate llm k tb with _ | ⟨t, k2⟩
  · cases rl <;> simp [runLoop, htg]
  · have hno : ¬ specDecision (g ((applyUpdate s
        { newMessages := ["request", "response"], newInsights := t }).insights)) = "regenerate" :=
      fun h => hg _ ((specDecision_eq_regenerate_iff _).1 h)
    cases rl with
    | zero => simp [runLoop, htg, List.count_cons]
    | succ r =>
      simp only [runLoop, htg, Option.elim_some]
      rw [if_neg hno]
      simp [List.count_cons]

lemma runLoop_confTrace_mem (llm : Nat → LLMResult) (g : List String → ℚ) (tb : Nat) :
    ∀ (rl : Nat) (s : AgentState) (k : Nat) (c : ℚ),
      c ∈ (runLoop llm g tb rl s k).2.2 → ∃ ins, c = g ins := by
  intro rl
  induction rl with
  | zero =>
    intro s k c hc
    rcases htg : tryGenerate llm k tb with _ | ⟨t, k2⟩
    · simp [runLoop, htg] at hc
    · simp only [runLoop, htg, Option.elim_some] at hc
      simp at hc
      exact ⟨_, hc⟩
  | succ r ih =>
    intro s k c hc
    rcases htg : tryGenerate llm k tb with _ | ⟨t, k2⟩
    · simp [runLoop, htg] at hc
    · simp only [runLoop, htg, Option.elim_some] at hc
      split_ifs at hc
      · rcases List.mem_cons.1 hc with rfl | hc
        · exact ⟨_, rfl⟩
        · exact ih _ _ _ hc
      · simp at hc
        exact ⟨_, hc⟩

lemma foldl_min_le_init : ∀ (l : List MetricRecord) (a : ℚ),
    l.foldl (fun m x => min m x.value) a ≤ a := by
  intro l
  induction l with
  | nil => intro a; simp
  | cons x xs ih =>
    intro a
    rw [List.foldl_cons]
    exact le_trans (ih _) (min_le_left _ _)

lemma foldl_min_le_mem : ∀ (l : List MetricRecord) (a : ℚ) (x : MetricRecord), x ∈ l →
    l.foldl (fun m y => min m y.value) a ≤ x.value := by
  intro l
  induction l with
  | nil => intro a x hx; cases hx
  | cons y ys ih =>
    intro a x hx
    rw [List.foldl_cons]
    rcases List.mem_cons.1 hx with rfl | hx
    · exact le_trans (foldl_min_le_init ys _) (min_le_right _ _)
    · exact ih _ _ hx

lemma foldl_min_attained : ∀ (l : List MetricRecord) (a : ℚ),
    l.foldl (fun m y => min m y.value) a = a ∨
    ∃ x ∈ l, l.foldl (fun m y => min m y.value) a = x.value := by
  intro l
  induction l with
  | nil => intro a; exact Or.inl rfl
  | cons y ys ih =>
    intro a
    rw [List.foldl_cons]
    rcases ih (min a y.value) with h | ⟨x, hx, h⟩
    · rcases min_choice a y.value with hm | hm
      · exact Or.inl (h.trans hm)
      · exact Or.inr ⟨y, List.mem_cons_self _ _, h.trans hm⟩
    · exact Or.inr ⟨x, List.mem_cons_of_mem _ hx, h⟩

lemma foldl_max_init_le : ∀ (l : List MetricRecord) (a : ℚ),
    a ≤ l.foldl (fun m x => max m x.value) a := by
  intro l
  induction l with
  | nil => intro a; simp
  | cons x xs ih =>
    intro a
    rw [List.foldl_cons]
    exact le_trans (le_max_left _ _) (ih _)

lemma foldl_max_mem_le : ∀ (l : List MetricRecord) (a : ℚ) (x : MetricRecord), x ∈ l →
    x.value ≤ l.foldl (fun m y => max m y.value) a := by
  intro l
  induction l with
  | nil => intro a x hx; cases hx
  | cons y ys ih =>
    intro a x hx
    rw [List.foldl_cons]
    rcases List.mem_cons.1 hx with rfl | hx
    · exact le_trans (le_max_right _ _) (foldl_max_init_le ys _)
    · exact ih _ _ hx

lemma foldl_max_attained : ∀ (l : List MetricRecord) (a : ℚ),
    l.foldl (fun m y => max m y.value) a = a ∨
    ∃ x ∈ l, l.foldl (fun m y => max m y.value) a = x.value := by
  intro l
  induction l with
  | nil => intro a; exact Or.inl rfl
  | cons y ys ih =>
    intro a
    rw [List.foldl_cons]
    rcases ih (max a y.value) with h | ⟨x, hx, h⟩
    · rcases max_choice a y.value with hm | hm
      · exact Or.inl (h.trans hm)
      · exact Or.inr ⟨y, List.mem_cons_self _ _, h.trans hm⟩
    · exact Or.inr ⟨x, List.mem_cons_of_mem _ hx, h⟩

lemma foldl_applyUpdate_insights : ∀ (us : List StateUpdate) (s : AgentState),
    s.insights <+: (us.foldl applyUpdate s).insights := by
  intro us
  induction us with
  | nil => intro s; exact List.prefix_refl _
  | cons u us ih =>
    intro s
    rw [List.foldl_cons]
    exact List.IsPrefix.trans
      (show s.insights <+: (applyUpdate s u).insights from List.prefix_append _ _) (ih _)

lemma calculate_confidence_ge_half (ins : List String) :
    (0.5 : ℚ) ≤ calculate_confidence ins := by
  rw [calculate_confidence]
  split_ifs <;> norm_num [min_def]

lemma calculate_confidence_le_one (ins : List String) :
    calculate_confidence ins ≤ 1 := by
  rw [calculate_confidence]
  split_ifs <;> norm_num [min_def]

/-! ### Claims -/

/-- Claim C1, counterexample: the routing decision does not equal the
spec's three-rule list on every workflow state.  At a state whose
analysis has `quality_acceptable = true` and whose confidence is `0.8`,
the source's `_should_continue` returns `"continue"`, while rule 1 of the
claimed decision list demands `"end"`. -/
theorem c1_counterexample :
    should_continue
      { messages := [], metrics_data := [], insights := []
        current_analysis := { total_metrics := 0, categories := [], min_value := 0,
                              max_value := 0, quality_acceptable := true }
        confidence_score := 0.8 } ≠
      specDecision 0.8 := by
  norm_num [should_continue, specDecision]
  decide

/-- Claim C1, amended: for every workflow state the routing decision
equals the ordered decision list whose first rule additionally requires
`quality_acceptable` and yields `continue`: if `quality_acceptable` and
`confidence ≥ 0.7` then `continue`; else if `confidence < 0.5` then
`regenerate`; else `end`. -/
theorem c1_routing_decision_amended (s : AgentState) :
    should_continue s =
      amendedDecision s.current_analysis.quality_acceptable s.confidence_score := rfl

/-- Claim C2: with a reliable collaborator, every run of the engine, for
every quality-gate scorer, reaches Format with at most `maxRetries + 1`
Generate invocations; and whenever the gate scores every insight set
below `0.5`, the run performs exactly `maxRetries + 1` Generate calls and
still terminates successfully with a confidence below `0.5` — the forced
acceptance. -/
theorem c2_bounded_generate_calls (llm : Nat → LLMResult) (gateConf : List String → ℚ)
    (maxRetries tb : Nat) (input : List MetricRecord)
    (hin : input ≠ []) (hllm : ∀ n, llm n ≠ .fail) :
    (((runEngine llm gateConf maxRetries tb input).2.1).count Step.generate ≤ maxRetries + 1
      ∧ Step.format ∈ (runEngine llm gateConf maxRetries tb input).2.1)
    ∧ ((∀ ins, gateConf ins < 0.5) →
        ((runEngine llm gateConf maxRetries tb input).2.1).count Step.generate = maxRetries + 1
        ∧ ∃ recs conf, (runEngine llm gateConf maxRetries tb input).1 = .ok (recs, conf)
            ∧ conf < 0.5) := by
  match input, hin with
  | r :: rs, _ =>
    simp only [runEngine]
    constructor
    · constructor
      · simpa [List.count_cons] using runLoop_count_generate_le llm gateConf tb maxRetries _ 0
      · exact List.mem_cons_of_mem _
          (runLoop_reaches_format llm gateConf tb hllm maxRetries _ 0).1
    · intro hg
      refine ⟨?_, (runLoop_low_gate llm gateConf tb hllm hg maxRetries _ 0).2⟩
      simpa [List.count_cons] using (runLoop_low_gate llm gateConf tb hllm hg maxRetries _ 0).1

/-- Witness for C2 at a concrete run: a collaborator that always answers,
a gate that always scores `0`, `maxRetries = 2`: exactly `3` Generate
invocations. -/
theorem c2_bounded_generate_calls_witness :
    ((runEngine (fun _ => LLMResult.ok ["a"]) (fun _ => 0) 2 0
        [{ id := 1, name := "m", value := 10, category := "sales",
           description := none }]).2.1).count Step.generate = 2 + 1 :=
  ((c2_bounded_generate_calls (fun _ => LLMResult.ok ["a"]) (fun _ => 0) 2 0 _
      (by simp) (fun _ h => LLMResult.noConfusion h)).2 (fun _ => by norm_num)).1

/-- Claim C3: the Quality Gate's confidence equals the spec's weighted
heuristic — base `0.5`, `+0.2` for average length above 50, `+0.1` for a
numeric token, `+0.2` for an action verb, clamped to `[0.0, 1.0]` on both
sides.  The source clamps only from above with `min(confidence, 1.0)`,
but since the sum is at least `0.5` the lower clamp never bites and the
two computations agree on every insight sequence. -/
theorem c3_confidence_heuristic (insights : List String) :
    calculate_confidence insights = spec_confidence insights := by
  rw [calculate_confidence, spec_confidence]
  split_ifs <;> norm_num [min_def, max_def]

/-- Claim C4: on a single 20-character insight with no digits and no
action verbs the scorer yields exactly `0.5`, and the routing decision at
that confidence is `"end"` — mid-range acceptance, no regeneration. -/
theorem c4_boundary_mid_confidence (s : AgentState)
    (h1 : s.insights = ["the metric was calm."])
    (h2 : s.confidence_score = calculate_confidence s.insights) :
    calculate_confidence s.insights = 0.5 ∧ should_continue s = "end" := by
  have hc : calculate_confidence s.insights = 0.5 := by
    rw [h1, calculate_confidence]
    rw [if_neg (by simp [show has_action_words ["the metric was calm."] = false from by decide])]
    rw [if_neg (by simp [show has_numbers ["the metric was calm."] = false from by decide])]
    rw [if_neg (by norm_num [avg_length, show "the metric was calm.".length = 20 from rfl])]
    norm_num
  refine ⟨hc, ?_⟩
  show (if s.current_analysis.quality_acceptable ∧ s.confidence_score ≥ 0.7 then "continue"
        else if s.confidence_score < 0.5 then "regenerate" else "end") = "end"
  rw [h2, hc]
  rw [if_neg (fun h => absurd h.2 (by norm_num)), if_neg (by norm_num)]

/-- Witness for C4 at the concrete boundary state. -/
theorem c4_boundary_mid_confidence_witness :
    calculate_confidence
        (AgentState.insights
          { messages := [], metrics_data := [], insights := ["the metric was calm."],
            current_analysis := {},
            confidence_score := calculate_confidence ["the metric was calm."] }) = 0.5
    ∧ should_continue
        { messages := [], metrics_data := [], insights := ["the metric was calm."],
          current_analysis := {},
          confidence_score := calculate_confidence ["the metric was calm."] } = "end" :=
  c4_boundary_mid_confidence _ rfl rfl

/-- Claim C5: the scorer stays inside `[0.0, 1.0]` on every insight
sequence (the empty one included), and every confidence value the gate
assigns over the course of any engine run lies in `[0.0, 1.0]`. -/
theorem c5_confidence_in_unit_interval :
    (∀ insights : List String,
        0 ≤ calculate_confidence insights ∧ calculate_confidence insights ≤ 1)
    ∧ ∀ (llm : Nat → LLMResult) (maxRetries tb : Nat) (input : List MetricRecord),
        ∀ c ∈ (runEngine llm calculate_confidence maxRetries tb input).2.2,
          0 ≤ c ∧ c ≤ 1 := by
  have hb : ∀ ins : List String,
      0 ≤ calculate_confidence ins ∧ calculate_confidence ins ≤ 1 :=
    fun ins => ⟨le_trans (by norm_num) (calculate_confidence_ge_half ins),
                calculate_confidence_le_one ins⟩
  refine ⟨hb, ?_⟩
  intro llm mr tb input c hc
  match input with
  | [] => simp [runEngine] at hc
  | r :: rs =>
    simp only [runEngine] at hc
    obtain ⟨ins, rfl⟩ := runLoop_confTrace_mem llm calculate_confidence tb mr _ 0 c hc
    exact hb ins

/-- Witness for C5 at a concrete run whose gate fires once. -/
theorem c5_confidence_in_unit_interval_witness :
    0 ≤ calculate_confidence ["a"] ∧ calculate_confidence ["a"] ≤ 1 :=
  c5_confidence_in_unit_interval.2 (fun _ => LLMResult.ok ["a"]) 0 0
    [{ id := 1, name := "m", value := 10, category := "sales", description := none }]
    (calculate_confidence ["a"]) (List.mem_singleton.mpr rfl)

/-- Claim C6: the `insights` field is append-only.  Across any sequence
of step deltas merged by the state container, the previous insights list
is a prefix of the new one (so every previously accumulated insight stays
at its original position, witnessed by the index-wise equality), and its
length never decreases. -/
theorem c6_insights_append_only (s : AgentState) (updates : List StateUpdate) :
    s.insights <+: (updates.foldl applyUpdate s).insights
    ∧ s.insights.length ≤ (updates.foldl applyUpdate s).insights.length
    ∧ ∀ i, i < s.insights.length →
        (updates.foldl applyUpdate s).insights[i]? = s.insights[i]? := by
  refine ⟨foldl_applyUpdate_insights updates s,
    (foldl_applyUpdate_insights updates s).length_le, ?_⟩
  intro i hi
  obtain ⟨t, ht⟩ := foldl_applyUpdate_insights updates s
  rw [← ht, List.getElem?_append, if_pos hi]

/-- Witness for C6: one appended delta over a one-insight state. -/
theorem c6_insights_append_only_witness :
    (([{ newInsights := ["b"] }] : List StateUpdate).foldl applyUpdate
        { messages := [], metrics_data := [], insights := ["a"],
          current_analysis := {}, confidence_score := 0 }).insights[0]? =
      (AgentState.insights
        { messages := [], metrics_data := [], insights := ["a"],
          current_analysis := {}, confidence_score := 0 })[0]? :=
  (c6_insights_append_only
    { messages := [], metrics_data := [], insights := ["a"],
      current_analysis := {}, confidence_score := 0 }
    [{ newInsights := ["b"] }]).2.2 0 (by decide)

/-- Claim C7: on every non-empty batch, Analyze's `total_metrics` equals
the batch length, `min_value`/`max_value` are attained values bounding
every record's value, `categories` holds exactly the distinct categories
present, and Analyze is pure — running it twice yields the same output
(definitional in this embedding). -/
theorem c7_analyze_correct (records : List MetricRecord) (h : records ≠ []) :
    (analyze records).total_metrics = records.length
    ∧ ((analyze records).min_value ∈ records.map (fun m => m.value)
        ∧ ∀ v ∈ records.map (fun m => m.value), (analyze records).min_value ≤ v)
    ∧ ((analyze records).max_value ∈ records.map (fun m => m.value)
        ∧ ∀ v ∈ records.map (fun m => m.value), v ≤ (analyze records).max_value)
    ∧ (∀ c, c ∈ (analyze records).categories ↔ c ∈ records.map (fun m => m.category))
    ∧ (analyze records).categories.Nodup
    ∧ analyze records = analyze records := by
  match records, h with
  | r :: rs, _ =>
    refine ⟨rfl, ⟨?_, ?_⟩, ⟨?_, ?_⟩, fun c => ?_, ?_, rfl⟩
    · show rs.foldl (fun m x => min m x.value) r.value ∈ (r :: rs).map (fun m => m.value)
      rcases foldl_min_attained rs r.value with hm | ⟨x, hx, hm⟩
      · rw [hm]; exact List.mem_map_of_mem _ (List.mem_cons_self _ _)
      · rw [hm]; exact List.mem_map_of_mem _ (List.mem_cons_of_mem _ hx)
    · intro v hv
      obtain ⟨m, hm, rfl⟩ := List.mem_map.1 hv
      rcases List.mem_cons.1 hm with rfl | hm
      · exact foldl_min_le_init rs _
      · exact foldl_min_le_mem rs _ _ hm
    · show rs.foldl (fun m x => max m x.value) r.value ∈ (r :: rs).map (fun m => m.value)
      rcases foldl_max_attained rs r.value with hm | ⟨x, hx, hm⟩
      · rw [hm]; exact List.mem_map_of_mem _ (List.mem_cons_self _ _)
      · rw [hm]; exact List.mem_map_of_mem _ (List.mem_cons_of_mem _ hx)
    · intro v hv
      obtain ⟨m, hm, rfl⟩ := List.mem_map.1 hv
      rcases List.mem_cons.1 hm with rfl | hm
      · exact foldl_max_init_le rs _
      · exact foldl_max_mem_le rs _ _ hm
    · exact List.mem_dedup
    · exact List.nodup_dedup _

/-- Witness for C7 on the spec's Scenario A batch
(values 10, 20, 30; categories sales, sales, marketing). -/
theorem c7_analyze_correct_witness :
    (analyze
        [{ id := 1, name := "m1", value := 10, category := "sales", description := none },
         { id := 2, name := "m2", value := 20, category := "sales", description := none },
         { id := 3, name := "m3", value := 30, category := "marketing",
           description := none }]).total_metrics =
      ([{ id := 1, name := "m1", value := 10, category := "sales", description := none },
        { id := 2, name := "m2", value := 20, category := "sales", description := none },
        { id := 3, name := "m3", value := 30, category := "marketing",
          description := none }] : List MetricRecord).length :=
  (c7_analyze_correct _ (by simp)).1

/-- Claim C8: the engine answers an empty metric batch with `InputError`
at once — the step trace is empty, so neither Analyze nor Generate ran,
and the error result carries no `InsightRecord`. -/
theorem c8_empty_input_error (llm : Nat → LLMResult) (gateConf : List String → ℚ)
    (maxRetries tb : Nat) :
    runEngine llm gateConf maxRetries tb [] =
      (.error EngineError.InputError, [], []) := rfl

/-- Claim C9: when the collaborator fails on every attempt, the run ends
in `LLMError` after the transient retry budget is exhausted: the trace
shows Analyze and the one Generate step (whose internal attempts all
failed), Format is never reached, the gate never assigns a confidence,
and the error result carries no `InsightRecord`. -/
theorem c9_llm_failure_error (gateConf : List String → ℚ) (maxRetries tb : Nat)
    (input : List MetricRecord) (h : input ≠ []) :
    runEngine (fun _ => LLMResult.fail) gateConf maxRetries tb input =
      (.error EngineError.LLMError, [Step.analyze, Step.generate], []) := by
  match input, h with
  | r :: rs, _ =>
    cases maxRetries <;> simp [runEngine, runLoop, tryGenerate_fail]

/-- Witness for C9 at a concrete failing run. -/
theorem c9_llm_failure_error_witness :
    runEngine (fun _ => LLMResult.fail) (fun _ => 0) 2 1
        [{ id := 1, name := "m", value := 10, category := "sales", description := none }] =
      (.error EngineError.LLMError, [Step.analyze, Step.generate], []) :=
  c9_llm_failure_error _ 2 1 _ (by simp)

/-- Claim C10 (implicit): the scorer never goes below its `0.5` base, so
a routing decision fed a scorer-produced confidence can never be
`"regenerate"`, and an engine run whose gate is the repository's scorer
performs at most one Generate step — the regeneration loop is
unreachable. -/
theorem c10_regenerate_unreachable :
    (∀ insights : List String, (0.5 : ℚ) ≤ calculate_confidence insights)
    ∧ (∀ s : AgentState, s.confidence_score = calculate_confidence s.insights →
        should_continue s ≠ "regenerate")
    ∧ ∀ (llm : Nat → LLMResult) (maxRetries tb : Nat) (input : List MetricRecord),
        ((runEngine llm calculate_confidence maxRetries tb input).2.1).count
          Step.generate ≤ 1 := by
  refine ⟨calculate_confidence_ge_half, ?_, ?_⟩
  · intro s hs
    have hge : ¬ s.confidence_score < 0.5 := by
      rw [hs]; exact not_lt.2 (calculate_confidence_ge_half _)
    show (if s.current_analysis.quality_acceptable ∧ s.confidence_score ≥ 0.7 then "continue"
          else if s.confidence_score < 0.5 then "regenerate" else "end") ≠ "regenerate"
    by_cases h1 : s.current_analysis.quality_acceptable ∧ s.confidence_score ≥ 0.7
    · rw [if_pos h1]; simp
    · rw [if_neg h1, if_neg hge]; simp
  · intro llm mr tb input
    match input with
    | [] => simp [runEngine]
    | r :: rs =>
      simp only [runEngine]
      have hk := runLoop_count_le_one llm calculate_confidence tb
        (fun ins => not_lt.2 (calculate_confidence_ge_half ins)) mr
        { messages := [], metrics_data := r :: rs, insights := [],
          current_analysis := analyze (r :: rs), confidence_score := 0 } 0
      simpa [List.count_cons] using hk

/-- Witness for C10 at a concrete state carrying a scorer-produced
confidence. -/
theorem c10_regenerate_unreachable_witness :
    should_continue
        { messages := [], metrics_data := [], insights := ["a"], current_analysis := {},
          confidence_score := calculate_confidence ["a"] } ≠ "regenerate" :=
  c10_regenerate_unreachable.2.1 _ rfl

end Workflow
